import Mathlib

/-!
Verification development for the swagger-api-gen code generator.

The generator reads a Swagger-1.2-style schema and emits TypeScript text:
model interfaces, per-operation options interfaces, and API classes with
one async method per operation.  The definitions below are a shallow
embedding of `src/swagger.interfaces.ts` (the type declarations) and the
generator module (`getJson`, the name/type mappers, the renderers and the
`generateApis` driver).  JavaScript objects are modelled as association
lists preserving insertion order, optional/absent JS values as `Option`,
and JS string truthiness (`""` falsy) explicitly where the code relies
on it.  Braces and apostrophes inside string literals are written with
their `\x..` escapes throughout.
-/

/-! ## Data model (swagger.interfaces.ts) -/

/-- `IModelProperty` from the schema: `type?`, `description?`, `items?`
(recursive, for arrays), `format?`, `$ref?`.  The union type
`ModelPropertyType` is not enforced by the JS runtime, so `type` is an
arbitrary optional string here, as the generator treats it. -/
inductive IModelProperty where
  | mk (type : Option String) (description : Option String)
       (items : Option IModelProperty) (format : Option String)
       (ref : Option String)

def IModelProperty.type : IModelProperty → Option String
  | .mk t _ _ _ _ => t

def IModelProperty.description : IModelProperty → Option String
  | .mk _ d _ _ _ => d

def IModelProperty.items : IModelProperty → Option IModelProperty
  | .mk _ _ i _ _ => i

def IModelProperty.format : IModelProperty → Option String
  | .mk _ _ _ f _ => f

/-- The `$ref` field (named `ref` since `$` is not a Lean identifier). -/
def IModelProperty.ref : IModelProperty → Option String
  | .mk _ _ _ _ r => r

/-- `IModel`: id, required-field list, and the property mapping
(a JS object, modelled as an insertion-ordered association list). -/
structure IModel where
  id : String
  required : List String
  properties : List (String × IModelProperty)

/-- `IParameter` of an operation. `paramType` is `'query' | 'path' | 'body'`
but optional and unchecked at runtime. -/
structure IParameter where
  description : String
  enum : Option (List String)
  format : Option String
  name : String
  paramType : Option String
  required : Bool
  type : String
deriving DecidableEq, Repr

structure IResponseMessage where
  code : Int
  message : String
  responseModel : String
deriving DecidableEq, Repr

structure IOperation where
  consumes : List String
  format : Option String
  method : String
  nickname : String
  notes : String
  parameters : List IParameter
  produces : List String
  responseMessages : List IResponseMessage
  summary : String
  type : String
deriving DecidableEq, Repr

structure IApiOperations where
  operations : List IOperation
  path : String
deriving DecidableEq, Repr

structure IApi where
  apiVersion : String
  apis : List IApiOperations
  basePath : String
  swaggerVersion : String
  consumes : List String
  description : String
  models : List (String × IModel)
  produces : List String
  resourcePath : String

structure ISchemaApiInfo where
  description : String
  path : String
deriving DecidableEq, Repr

structure ISchemaApi where
  apiVersion : String
  apis : List ISchemaApiInfo
  basePath : String
  swaggerVersion : String
deriving DecidableEq, Repr

structure IGenerateApisOptions where
  url : String
  dest : String
  splitInterfaces : Bool
  groupClass : String
deriving DecidableEq, Repr

/-! ## Name/Type mappers -/

/-- JS `str.charAt(i)`: one-character string, or `""` out of range. -/
def charAt (s : String) (i : Nat) : String :=
  match s.data.drop i with
  | [] => ""
  | c :: _ => String.mk [c]

/-- JS `str.substr(i)`. -/
def substrFrom (s : String) (i : Nat) : String :=
  String.mk (s.data.drop i)

/-- JS `str.toLowerCase()` (ASCII model). -/
def strLower (s : String) : String :=
  String.mk (s.data.map Char.toLower)

/-- JS `str.toUpperCase()` (ASCII model). -/
def strUpper (s : String) : String :=
  String.mk (s.data.map Char.toUpper)

/-- `unTitleCase(str) = str.charAt(0).toLowerCase() + str.substr(1)`. -/
def unTitleCase (str : String) : String :=
  strLower (charAt str 0) ++ substrFrom str 1

/-- Whitespace as matched by the JS regex `\S` complement (model). -/
def isJsSpace (c : Char) : Bool :=
  c = ' ' ∨ c = '\t' ∨ c = '\n' ∨ c = '\r'

/-- Word characters `\w` of the JS regex. -/
def isWordChar (c : Char) : Bool :=
  c.isAlphanum ∨ c = '_'

/-- `toTitleCase(str)`: the regex replace of every `\w\S*` token by
first-char-uppercased, rest-lowercased. -/
def titleTokens : List Char → List Char
  | [] => []
  | c :: cs =>
    if isWordChar c then
      c.toUpper :: (cs.takeWhile (fun d => ¬ isJsSpace d)).map Char.toLower
        ++ titleTokens (cs.dropWhile (fun d => ¬ isJsSpace d))
    else
      c :: titleTokens cs
termination_by cs => cs.length
decreasing_by
  · simp only [List.length_cons]
    exact Nat.lt_succ_of_le (List.IsSuffix.sublist (List.dropWhile_suffix _)).length_le
  · simp

def toTitleCase (str : String) : String :=
  String.mk (titleTokens str.data)

/-- `getApiName`: split the resource path on `/`, drop empty segments,
the version segment and `\x7b`-parameter segments, title-case and join. -/
def getApiName (api : IApi) : String :=
  String.join (((api.resourcePath.splitOn "/").filter
    (fun s => s ≠ "" ∧ s ≠ api.apiVersion ∧ charAt s 0 ≠ "\x7b")).map toTitleCase)

/-- `getTsInterfaceName(modelId) = modelId ? I${modelId} : 'unknown'`. -/
def getTsInterfaceName (modelId : String) : String :=
  if modelId = "" then "unknown" else "I" ++ modelId

/-- `mapType`: the primitive-tag switch with the permissive fallback
`type || 'unknown'`. -/
def mapType : Option String → String
  | some "integer" => "number"
  | some "number" => "number"
  | some "string" => "string"
  | some t => if t = "" then "unknown" else t
  | none => "unknown"

/-- `getTsPropertyType`: arrays with an `items` sub-schema recurse and
append `[]`; otherwise a truthy `$ref` maps to the interface name;
otherwise the primitive mapping. -/
def getTsPropertyType : IModelProperty → String
  | .mk ty _des items _fmt ref =>
    match ty, items with
    | some "array", some it => getTsPropertyType it ++ "[]"
    | _, _ =>
      match ref with
      | some r => if r = "" then mapType ty else getTsInterfaceName r
      | none => mapType ty

/-- `getTsParameterType`: an enum renders as a union of quoted literals;
a `body` parameter's `type` is a model reference; else primitive. -/
def getTsParameterType (property : IParameter) : String :=
  match property.enum with
  | some es => String.intercalate " | " (es.map (fun s => "\x27" ++ s ++ "\x27"))
  | none =>
    if property.paramType = some "body" then getTsInterfaceName property.type
    else mapType (some property.type)

/-! ## Renderers (generator, current revision) -/

/-- The import-name list computed by `getTsInterface` in split mode:
all direct `$ref`s of the properties, then all `$ref`s of their `items`,
filtered by truthiness, mapped to interface names.  No deduplication. -/
def refNames (model : IModel) : List String :=
  ((model.properties.map (fun kv => some kv.2))
    ++ model.properties.map (fun kv => kv.2.items)).filterMap
    (fun op =>
      match op with
      | none => none
      | some p =>
        match p.ref with
        | none => none
        | some r => if r = "" then none else some (getTsInterfaceName r))

/-- The optional marker for one model property:
`model.required.includes(name) ? '' : '?'`. -/
def propertyRequiredMarker (model : IModel) (name : String) : String :=
  if model.required.contains name then "" else "?"

/-- One rendered model-property line (the loop body of `getTsInterface`). -/
def tsInterfaceField (model : IModel) (name : String) (property : IModelProperty) : String :=
  "\n"
    ++ (match property.description with
        | some d => if d = "" then "" else "  // " ++ d
        | none => "")
    ++ "\n  " ++ name ++ propertyRequiredMarker model name ++ ": "
    ++ getTsPropertyType property ++ ";"

/-- `getTsInterface`: optional import lines (split mode), then the
`export interface` body listing every property. -/
def getTsInterface (model : IModel) (options : IGenerateApisOptions) : String :=
  let out :=
    if options.splitInterfaces then
      String.intercalate "\n" ((refNames model).map
        (fun name => "import \x7b " ++ name ++ " \x7d from \"./" ++ name ++ "\";"))
    else ""
  let out := out ++ (if out ≠ "" then "\n\n" else "")
  let out := out ++ "export interface " ++ getTsInterfaceName model.id ++ " \x7b"
  let out := model.properties.foldl
    (fun acc kv => acc ++ tsInterfaceField model kv.1 kv.2) out
  out ++ "\n\x7d"

/-- `getTsOperationOptionsInterfaceName(operation) = I${nickname}Options`. -/
def getTsOperationOptionsInterfaceName (operation : IOperation) : String :=
  "I" ++ operation.nickname ++ "Options"

/-- `uniq = Array.from(new Set(items))`: first-occurrence deduplication. -/
def uniq (items : List String) : List String :=
  items.foldl (fun acc x => if acc.contains x then acc else acc ++ [x]) []

/-- `getTsParam`: one rendered parameter line of an options interface. -/
def getTsParam (parameter : IParameter) : String :=
  let required := if parameter.required then "" else "?"
  let type := getTsParameterType parameter
  (if parameter.description = "" then ""
   else "\n    // " ++ parameter.description)
    ++ "\n    " ++ parameter.name ++ required ++ ": " ++ type ++ ";"

/-- The accumulation loop of `getTsOperationOptionsInterface`: the three
group strings (body, query, path) built by appending `getTsParam` for
each parameter whose `paramType` matches. -/
def optionGroups (params : List IParameter) : String × String × String :=
  params.foldl
    (fun acc param =>
      let b := if param.paramType = some "body" then acc.1 ++ getTsParam param else acc.1
      let q := if param.paramType = some "query" then acc.2.1 ++ getTsParam param else acc.2.1
      let p := if param.paramType = some "path" then acc.2.2 ++ getTsParam param else acc.2.2
      (b, q, p))
    ("", "", "")

/-- `bodyRequired`: some `body` parameter of the operation is required. -/
def bodyRequired (operation : IOperation) : Bool :=
  (operation.parameters.filter (fun o => o.paramType = some "body")).any (fun o => o.required)

/-- `queryRequired`: some `query` parameter of the operation is required. -/
def queryRequired (operation : IOperation) : Bool :=
  (operation.parameters.filter (fun o => o.paramType = some "query")).any (fun o => o.required)

/-- `paramsRequired`: some `path` parameter of the operation is required. -/
def paramsRequired (operation : IOperation) : Bool :=
  (operation.parameters.filter (fun o => o.paramType = some "path")).any (fun o => o.required)

/-- `getTsOperationOptionsInterface`: options-interface declaration with
up to three sub-shape fields `body`, `query`, `params`, each present iff
its group string is non-empty and optional iff no parameter of the group
is required.  In split mode, import lines precede it (the body-interface
imports are appended via JS array-to-string coercion, i.e. comma-joined). -/
def getTsOperationOptionsInterface (operation : IOperation) (options : IGenerateApisOptions) : String :=
  let g := optionGroups operation.parameters
  let body := g.1
  let query := g.2.1
  let params := g.2.2
  let out :=
    if options.splitInterfaces then
      let head := "import \x7b IOperationOptions \x7d from \"../Api\";"
      let interfaces := (operation.parameters.filter
          (fun param => param.paramType = some "body")).map
          (fun param => getTsInterfaceName param.type)
      let head := head ++ String.intercalate ","
        ((uniq interfaces).map
          (fun name => "\nimport \x7b " ++ name ++ " \x7d from \"./" ++ name ++ "\";"))
      head ++ (if head ≠ "" then "\n\n" else "")
    else ""
  let out := out ++ "export interface " ++ getTsOperationOptionsInterfaceName operation
    ++ " extends IOperationOptions \x7b"
  let out := out ++ (if body ≠ "" then
    "\n  body" ++ (if bodyRequired operation then "" else "?") ++ ": \x7b" ++ body ++ "\n  \x7d;\n"
    else "")
  let out := out ++ (if query ≠ "" then
    "\n  query" ++ (if queryRequired operation then "" else "?") ++ ": \x7b" ++ query ++ "\n  \x7d;"
    else "")
  let out := out ++ (if params ≠ "" then
    "\n  params" ++ (if paramsRequired operation then "" else "?") ++ ": \x7b" ++ params ++ "\n  \x7d;"
    else "")
  out ++ "\n\x7d"

/-- `getJsDocParamType`: `body` parameters document as `object`. -/
def getJsDocParamType (parameter : IParameter) : String :=
  if parameter.paramType = some "body" then "object" else mapType (some parameter.type)

/-- JS `String.prototype.padEnd`. -/
def padEnd (s : String) (n : Nat) : String :=
  s ++ String.mk (List.replicate (n - s.length) ' ')

/-- `getJsDocParam`: one `@param` JSDoc line. -/
def getJsDocParam (parameter : IParameter) : String :=
  let t := padEnd (getJsDocParamType parameter) 7
  let n := (if parameter.required then " " else "[") ++ parameter.name
    ++ (if parameter.required then "" else "]")
  let d := parameter.description
    ++ (if parameter.paramType = some "body" then getTsInterfaceName parameter.type else "")
    ++ (match parameter.enum with
        | some es => " (" ++ String.intercalate "|" (es.map (fun s => "\x27" ++ s ++ "\x27")) ++ ")"
        | none => "")
  "\n   * @param   " ++ t ++ " " ++ n ++ " - " ++ d

/-- The body/query/path accumulation of `getJsDocOperation`, documenting
parameters under their `options.<group>.` names. -/
def jsDocGroups (params : List IParameter) : String × String × String :=
  params.foldl
    (fun acc param =>
      let b := if param.paramType = some "body" then
        acc.1 ++ getJsDocParam { param with name := "options.body." ++ param.name } else acc.1
      let q := if param.paramType = some "query" then
        acc.2.1 ++ getJsDocParam { param with name := "options.query." ++ param.name } else acc.2.1
      let p := if param.paramType = some "path" then
        acc.2.2 ++ getJsDocParam { param with name := "options.params." ++ param.name } else acc.2.2
      (b, q, p))
    ("", "", "")

/-- A synthesized parameter record as built inline by `getJsDocOperation`
(JS object literal with only name/type/required/description set). -/
def syntheticParam (name : String) (required : Bool) (description : String) : IParameter :=
  { description := description, enum := none, format := none, name := name,
    paramType := none, required := required, type := "object" }

/-- `getJsDocOperation`: the full JSDoc block of one operation.  Note it
filters on `o.type` (not `o.paramType`) for the group headers, exactly as
the source does. -/
def getJsDocOperation (operation : IOperation) : String :=
  let g := jsDocGroups operation.parameters
  let body := g.1
  let query := g.2.1
  let params := g.2.2
  let out := "  /**" ++ "\n   * " ++ operation.summary
  let out := out ++ getJsDocParam (syntheticParam "options"
    (operation.parameters.any (fun o => o.required))
    (getTsOperationOptionsInterfaceName operation))
  let out := out ++ (if body ≠ "" then
    getJsDocParam (syntheticParam "options.body"
      ((operation.parameters.filter (fun o => o.type = "body")).any (fun o => o.required))
      "body params") ++ body
    else "")
  let out := out ++ (if query ≠ "" then
    getJsDocParam (syntheticParam "options.query"
      ((operation.parameters.filter (fun o => o.type = "query")).any (fun o => o.required))
      "query params") ++ query
    else "")
  let out := out ++ (if params ≠ "" then
    getJsDocParam (syntheticParam "options.params"
      ((operation.parameters.filter (fun o => o.type = "path")).any (fun o => o.required))
      "path params") ++ params
    else "")
  out ++ "\n   * @returns Promise <" ++ getTsInterfaceName operation.type ++ ">"
    ++ "\n   */"

/-- The optional marker of the generated method's single `options`
argument: `operation.parameters.some(o => o.required) ? '' : '?'`. -/
def optionsArgMarker (operation : IOperation) : String :=
  if operation.parameters.any (fun o => o.required) then "" else "?"

/-- The generated method's name: `unTitleCase(operation.nickname)`. -/
def tsMethodName (operation : IOperation) : String :=
  unTitleCase operation.nickname

/-- `getTsOperation`: JSDoc block plus the async method declaration. -/
def getTsOperation (operation : IOperation) (url : String) : String :=
  getJsDocOperation operation
    ++ "\n  async " ++ tsMethodName operation ++ "(options" ++ optionsArgMarker operation
    ++ ": " ++ getTsOperationOptionsInterfaceName operation
    ++ "): Promise<" ++ getTsInterfaceName operation.type ++ "> \x7b"
    ++ "\n    return this.requestJson(\x7b method: \x27" ++ operation.method
    ++ "\x27, path: \x27" ++ url ++ "\x27, ...options \x7d);"
    ++ "\n  \x7d"

/-- `getTsApi`: one full class file (imports or inlined declarations,
class header, constructor, one method per operation). -/
def getTsApi (className : String) (api : IApi) (options : IGenerateApisOptions) : String :=
  let out := "import \x7b Api" ++ (if options.splitInterfaces then "" else ", IOperationOptions")
    ++ " \x7d from \"./Api\";"
  let out :=
    if options.splitInterfaces then
      let interfaces := uniq (((api.apis.map (fun o => o.operations)).flatten).map
        (fun operation => [getTsOperationOptionsInterfaceName operation,
                           getTsInterfaceName operation.type])).flatten
      out ++ String.intercalate "\n" ((interfaces.filter (fun name => name ≠ "unknown")).map
        (fun name => "import \x7b " ++ name ++ " \x7d from \"./interfaces/" ++ name ++ "\";"))
    else
      let out := api.models.foldl
        (fun acc kv => acc ++ "\n\n" ++ getTsInterface kv.2 options) out
      api.apis.foldl
        (fun acc grp => grp.operations.foldl
          (fun acc2 operation => acc2 ++ "\n\n" ++ getTsOperationOptionsInterface operation options)
          acc)
        out
  let out := out ++ "\n"
  let out := out ++ (if api.description ≠ "" then "\n// " ++ api.description else "")
  let out := out ++ "\nexport class " ++ className ++ " extends Api \x7b"
    ++ "\n  /**" ++ "\n   * Create instance" ++ "\n   * @constructor"
    ++ "\n   * @param \x7bstring\x7d token - OAuth token" ++ "\n   */"
    ++ "\n  constructor(token: string) \x7b"
    ++ "\n    super(\x7b url: \x27" ++ api.basePath ++ "\x27, token \x7d);"
    ++ "\n  \x7d"
  let out := api.apis.foldl
    (fun acc grp => grp.operations.foldl
      (fun acc2 operation => acc2 ++ "\n" ++ "\n" ++ getTsOperation operation grp.path)
      acc)
    out
  out ++ "\n\x7d\n"

/-! ## JSON values, `JSON.stringify(·, null, 2)` and `JSON.parse` (model)

The loader caches schema documents: `getJson` reads the cache file and
`JSON.parse`s it, or fetches, `JSON.parse`s the response body, and writes
`JSON.stringify(data, null, 2)` to the cache file.  JSON documents are
modelled by `Json` (numbers as integers), the pretty-printer by
`stringifyVal` and the parser by a fueled recursive-descent `parseVal`. -/

inductive Json where
  | null
  | bool (b : Bool)
  | num (n : Int)
  | str (s : String)
  | arr (elems : List Json)
  | obj (members : List (String × Json))

/-- The `\x7b` character. -/
def lbraceC : Char := Char.ofNat 123

/-- The `\x7d` character. -/
def rbraceC : Char := Char.ofNat 125

def digitChar : Nat → Char
  | 0 => '0' | 1 => '1' | 2 => '2' | 3 => '3' | 4 => '4'
  | 5 => '5' | 6 => '6' | 7 => '7' | 8 => '8' | _ => '9'

/-- Decimal digits of `n` (fueled so that it reduces definitionally). -/
def natCharsAux : Nat → Nat → List Char
  | 0, _ => []
  | fuel + 1, n =>
    if n < 10 then [digitChar n]
    else natCharsAux fuel (n / 10) ++ [digitChar (n % 10)]

def natChars (n : Nat) : List Char := natCharsAux (n + 1) n

/-- Decimal rendering of an integer, as `JSON.stringify` prints it. -/
def intChars (n : Int) : List Char :=
  if n < 0 then '-' :: natChars n.natAbs else natChars n.natAbs

/-- String-content escaping of `JSON.stringify` (common escapes). -/
def escapeChar (c : Char) : List Char :=
  if c = '"' then ['\\', '"']
  else if c = '\\' then ['\\', '\\']
  else if c = '\n' then ['\\', 'n']
  else if c = '\t' then ['\\', 't']
  else if c = '\r' then ['\\', 'r']
  else [c]

def escapeChars (cs : List Char) : List Char := (cs.map escapeChar).flatten

def spacesC (n : Nat) : List Char := List.replicate n ' '

mutual

/-- `JSON.stringify(v, null, 2)` with the closing bracket of `v` at
indentation `ind`. -/
def stringifyVal (ind : Nat) : Json → List Char
  | .null => "null".data
  | .bool true => "true".data
  | .bool false => "false".data
  | .num n => intChars n
  | .str s => '"' :: (escapeChars s.data ++ ['"'])
  | .arr [] => "[]".data
  | .arr (x :: xs) =>
    '[' :: '\n' :: (spacesC (ind + 2) ++ (stringifyVal (ind + 2) x ++ stringifyArrTail ind xs))
  | .obj [] => [lbraceC, rbraceC]
  | .obj (m :: ms) =>
    lbraceC :: '\n' :: (spacesC (ind + 2) ++ (stringifyMember (ind + 2) m ++ stringifyObjTail ind ms))

/-- Remaining array elements: `,\n<indent>` before each, then
`\n<indent>]`. -/
def stringifyArrTail (ind : Nat) : List Json → List Char
  | [] => '\n' :: (spacesC ind ++ [']'])
  | y :: ys =>
    ',' :: '\n' :: (spacesC (ind + 2) ++ (stringifyVal (ind + 2) y ++ stringifyArrTail ind ys))

/-- One object member: `"key": value`. -/
def stringifyMember (ind : Nat) (m : String × Json) : List Char :=
  '"' :: (escapeChars m.1.data ++ ('"' :: ':' :: ' ' :: stringifyVal ind m.2))

/-- Remaining object members. -/
def stringifyObjTail (ind : Nat) : List (String × Json) → List Char
  | [] => '\n' :: (spacesC ind ++ [rbraceC])
  | m :: ms =>
    ',' :: '\n' :: (spacesC (ind + 2) ++ (stringifyMember (ind + 2) m ++ stringifyObjTail ind ms))

end

/-- `JSON.stringify(v, null, 2)` as a string. -/
def stringifyJson (v : Json) : String := String.mk (stringifyVal 0 v)

def isJsonWs (c : Char) : Bool := c = ' ' ∨ c = '\n' ∨ c = '\t' ∨ c = '\r'

def skipWs : List Char → List Char
  | [] => []
  | c :: cs => if isJsonWs c then skipWs cs else c :: cs

def digitVal (c : Char) : Nat := c.toNat - 48

def parseNatAux : Nat → List Char → Nat × List Char
  | acc, [] => (acc, [])
  | acc, c :: cs => if c.isDigit then parseNatAux (acc * 10 + digitVal c) cs else (acc, c :: cs)

def unescapeChar (e : Char) : Char :=
  if e = 'n' then '\n' else if e = 't' then '\t' else if e = 'r' then '\r' else e

/-- Scan a JSON string body after the opening quote, up to the closing
quote, undoing escapes. -/
def parseStringBody : List Char → Option (List Char × List Char)
  | [] => none
  | c :: cs =>
    if c = '"' then some ([], cs)
    else if c = '\\' then
      match cs with
      | [] => none
      | e :: cs' =>
        match parseStringBody cs' with
        | some (s, r) => some (unescapeChar e :: s, r)
        | none => none
    else
      match parseStringBody cs with
      | some (s, r) => some (c :: s, r)
      | none => none

mutual

/-- Fueled recursive-descent JSON value parser (model of `JSON.parse`);
returns the parsed value and the unconsumed input. -/
def parseVal : Nat → List Char → Option (Json × List Char)
  | 0, _ => none
  | fuel + 1, cs =>
    match skipWs cs with
    | [] => none
    | c :: cs' =>
      if c = '"' then
        match parseStringBody cs' with
        | some (s, r) => some (.str (String.mk s), r)
        | none => none
      else if c = '[' then
        match skipWs cs' with
        | [] => none
        | c2 :: r2 =>
          if c2 = ']' then some (.arr [], r2)
          else
            match parseVal fuel (c2 :: r2) with
            | some (x, r) =>
              match parseArrTail fuel r with
              | some (xs, r') => some (.arr (x :: xs), r')
              | none => none
            | none => none
      else if c = lbraceC then
        match skipWs cs' with
        | [] => none
        | c2 :: r2 =>
          if c2 = rbraceC then some (.obj [], r2)
          else if c2 = '"' then
            match parseStringBody r2 with
            | some (k, r3) =>
              match skipWs r3 with
              | c3 :: r4 =>
                if c3 = ':' then
                  match parseVal fuel r4 with
                  | some (v, r5) =>
                    match parseObjTail fuel r5 with
                    | some (ms, r6) => some (.obj ((String.mk k, v) :: ms), r6)
                    | none => none
                  | none => none
                else none
              | [] => none
            | none => none
          else none
      else if c = 'n' then
        match cs' with
        | 'u' :: 'l' :: 'l' :: r => some (.null, r)
        | _ => none
      else if c = 't' then
        match cs' with
        | 'r' :: 'u' :: 'e' :: r => some (.bool true, r)
        | _ => none
      else if c = 'f' then
        match cs' with
        | 'a' :: 'l' :: 's' :: 'e' :: r => some (.bool false, r)
        | _ => none
      else if c = '-' then
        match cs' with
        | [] => none
        | d :: t =>
          if d.isDigit then
            let p := parseNatAux 0 (d :: t)
            some (.num (-(p.1 : Int)), p.2)
          else none
      else if c.isDigit then
        let p := parseNatAux 0 (c :: cs')
        some (.num (p.1 : Int), p.2)
      else none

/-- Parse the continuation of an array: `, value ...` or `]`. -/
def parseArrTail : Nat → List Char → Option (List Json × List Char)
  | 0, _ => none
  | fuel + 1, cs =>
    match skipWs cs with
    | [] => none
    | c :: cs' =>
      if c = ',' then
        match parseVal fuel cs' with
        | some (x, r) =>
          match parseArrTail fuel r with
          | some (xs, r') => some (x :: xs, r')
          | none => none
        | none => none
      else if c = ']' then some ([], cs')
      else none

/-- Parse the continuation of an object: `, "key": value ...` or the
closing brace. -/
def parseObjTail : Nat → List Char → Option (List (String × Json) × List Char)
  | 0, _ => none
  | fuel + 1, cs =>
    match skipWs cs with
    | [] => none
    | c :: cs' =>
      if c = ',' then
        match skipWs cs' with
        | [] => none
        | c2 :: r2 =>
          if c2 = '"' then
            match parseStringBody r2 with
            | some (k, r3) =>
              match skipWs r3 with
              | c3 :: r4 =>
                if c3 = ':' then
                  match parseVal fuel r4 with
                  | some (v, r5) =>
                    match parseObjTail fuel r5 with
                    | some (ms, r6) => some ((String.mk k, v) :: ms, r6)
                    | none => none
                  | none => none
                else none
              | [] => none
            | none => none
          else none
      else if c = rbraceC then some ([], cs')
      else none

end

/-- `JSON.parse` (model): parse one value, allow only trailing
whitespace. -/
def parseJson (s : String) : Option Json :=
  match parseVal (s.length + 1) s.data with
  | some (v, rest) => if skipWs rest = [] then some v else none
  | none => none

/-! ## The Loader: `getJson` with its `./cache` directory -/

/-- The cache key: the URL with every `:`, `/`, `.`, `-`, `?`, `=`,
`\x7b`, `\x7d` character removed (the regex `[:/.\-?=\x7b\x7d]+`
replaced by the empty string). -/
def stripUrl (url : String) : String :=
  String.mk (url.data.filter
    (fun c => ¬ (c = ':' ∨ c = '/' ∨ c = '.' ∨ c = '-' ∨ c = '?' ∨ c = '='
                 ∨ c = lbraceC ∨ c = rbraceC)))

/-- The cache file path `./cache/<strippedUrl>`. -/
def cacheFilename (url : String) : String := "./cache/" ++ stripUrl url

/-- File-system and network state threaded through the loader: the cache
directory contents and the number of network fetches issued. -/
structure LoaderState where
  cache : List (String × String)
  fetchCount : Nat

/-- `fs.promises.writeFile`: overwrite an existing file or create it. -/
def cacheWrite (cache : List (String × String)) (k v : String) : List (String × String) :=
  if cache.any (fun kv => kv.1 = k) then
    cache.map (fun kv => if kv.1 = k then (k, v) else kv)
  else cache ++ [(k, v)]

/-- JS truthiness of a decoded JSON value (`!data`). -/
def jsTruthy : Json → Bool
  | .null => false
  | .bool b => b
  | .num n => n ≠ 0
  | .str s => s ≠ ""
  | _ => true

/-- The fetch branch of `getJson`: fetch the body, `JSON.parse` it
(`res.json()`, `none` = the promise rejects), write
`JSON.stringify(data, null, 2)` to the cache file, return the value. -/
def fetchAndCache (net : String → String) (path : String) (st : LoaderState)
    (filename : String) : Option (Json × LoaderState) :=
  match parseJson (net path) with
  | none => none
  | some v =>
    some (v, ⟨cacheWrite st.cache filename (stringifyJson v), st.fetchCount + 1⟩)

/-- `getJson(path)`: if the cache file exists it is read and parsed
(a parse failure throws); a falsy parsed value (or a missing file) falls
through to the network fetch. -/
def getJson (net : String → String) (path : String) (st : LoaderState) :
    Option (Json × LoaderState) :=
  let filename := cacheFilename path
  match st.cache.lookup filename with
  | some content =>
    match parseJson content with
    | none => none
    | some v => if jsTruthy v then some (v, st) else fetchAndCache net path st filename
  | none => fetchAndCache net path st filename

/-! ## The `generateApis` driver -/

/-- JS object spread `\x7b...a, ...b\x7d`: `a`'s keys first (values
overridden by `b` on collision), then `b`'s new keys. -/
def objMerge (a b : List (String × IModel)) : List (String × IModel) :=
  a.map (fun kv =>
      match b.lookup kv.1 with
      | some v => (kv.1, v)
      | none => kv)
    ++ b.filter (fun kv => (a.lookup kv.1).isNone)

/-- The reduce callback of the grouping merge: spread of the accumulator
with concatenated operation groups and merged model mappings. -/
def mergeApis (acc api : IApi) : IApi :=
  { acc with apis := acc.apis ++ api.apis, models := objMerge acc.models api.models }

/-- `apis.reduce(...)` with no initial accumulator: throws (`none`) on an
empty list, otherwise folds from the first element. -/
def mergeResources : List IApi → Option IApi
  | [] => none
  | a :: rest => some (rest.foldl mergeApis a)

/-- Content of the static base-class template copied to `<dest>/Api.ts`
(opaque to the generator; it is copied verbatim). -/
def apiTemplateText : String := "<template:Api.ts>"

/-- The per-resource writes of the main loop body of `generateApis`. -/
def resourceWrites (options : IGenerateApisOptions) (api : IApi) : List (String × String) :=
  (if options.groupClass = "" then
    [(options.dest ++ "/" ++ getApiName api ++ ".ts", getTsApi (getApiName api) api options)]
   else [])
    ++ (if options.splitInterfaces then
      api.models.map (fun kv =>
        (options.dest ++ "/interfaces/" ++ getTsInterfaceName kv.2.id ++ ".ts",
         getTsInterface kv.2 options))
      ++ (api.apis.map (fun grp => grp.operations.map (fun operation =>
          (options.dest ++ "/interfaces/" ++ getTsOperationOptionsInterfaceName operation ++ ".ts",
           getTsOperationOptionsInterface operation options)))).flatten
     else [])

/-- `generateApis`, modelled over already-decoded schema documents:
`index` is the root schema, `fetchApi url` the decoded sub-schema at
`url`.  Returns the file writes performed in order and whether the run
completed (`false` = it threw after those writes). -/
def generateApisRun (options : IGenerateApisOptions) (index : ISchemaApi)
    (fetchApi : String → IApi) : List (String × String) × Bool :=
  let start : List IApi × List (String × String) :=
    ([], [(options.dest ++ "/Api.ts", apiTemplateText)])
  let step := index.apis.foldl
    (fun acc info =>
      let api := fetchApi (index.basePath ++ info.path)
      (acc.1 ++ [api], acc.2 ++ resourceWrites options api))
    start
  if options.groupClass ≠ "" then
    match mergeResources step.1 with
    | none => (step.2, false)
    | some api =>
      (step.2 ++ [(options.dest ++ "/" ++ options.groupClass ++ ".ts",
                   getTsApi options.groupClass api options)], true)
  else (step.2, true)

/-! ## Spec-side definitions and concrete sample inputs -/

/-- Modelled from the spec: "the operation's nickname with its first
character lowercased and all remaining characters unchanged". -/
def specLowerFirst (s : String) : String :=
  match s.data with
  | [] => ""
  | c :: cs => String.mk (Char.toLower c :: cs)

/-- Concatenation of a list of strings, in order. -/
def concatStrings : List String → String
  | [] => ""
  | s :: t => s ++ concatStrings t

/-- The concatenation of `getTsParam` over the parameters of one
location group, in source order (what the accumulation loop builds). -/
def groupStrings (loc : String) (params : List IParameter) : String :=
  concatStrings ((params.filter (fun p => p.paramType = some loc)).map getTsParam)

/-- The input does not begin with a decimal digit (boundary condition
for number parsing). -/
def noDigitStart : List Char → Prop
  | [] => True
  | c :: _ => c.isDigit = false

/-- Sample operation: nickname `getPet`, no parameters. -/
def baseOp : IOperation :=
  { consumes := [], format := none, method := "GET", nickname := "getPet",
    notes := "", parameters := [], produces := [], responseMessages := [],
    summary := "Get a pet", type := "Pet" }

/-- Sample required path parameter `id`. -/
def idParam : IParameter :=
  { description := "pet id", enum := none, format := none, name := "id",
    paramType := some "path", required := true, type := "integer" }

/-- Sample operation with a single required path parameter. -/
def petOp : IOperation := { baseOp with parameters := [idParam] }

/-- Sample operation whose nickname begins with an uppercase letter. -/
def titleOp : IOperation := { baseOp with nickname := "GetPet" }

/-- A property that is only a model reference. -/
def refProp (r : String) : IModelProperty :=
  .mk none none none none (some r)

/-- A model with two properties referencing the same model `X`. -/
def modelDupRef : IModel :=
  { id := "M", required := [], properties := [("a", refProp "X"), ("b", refProp "X")] }

/-- An `array`-tagged property with no `items` and no `$ref`. -/
def bareArrayProp : IModelProperty :=
  .mk (some "array") none none none none

/-- Generator options with split-interfaces mode on. -/
def splitOptions : IGenerateApisOptions :=
  { url := "u", dest := "./generated", splitInterfaces := true, groupClass := "" }

def modelXA : IModel := { id := "XA", required := [], properties := [] }

def modelXB : IModel := { id := "XB", required := [], properties := [] }

def baseApi : IApi :=
  { apiVersion := "1", apis := [], basePath := "http://a", swaggerVersion := "1.2",
    consumes := [], description := "", models := [], produces := [],
    resourcePath := "/a" }

def opsGroupA : IApiOperations := { operations := [], path := "/p1" }

def opsGroupB : IApiOperations := { operations := [], path := "/p2" }

/-- Resource A: defines model `X` as `modelXA`. -/
def apiA : IApi := { baseApi with models := [("X", modelXA)], apis := [opsGroupA] }

/-- Resource B: defines model `X` as `modelXB`. -/
def apiB : IApi := { baseApi with models := [("X", modelXB)], apis := [opsGroupB] }

/-- A schema index with zero resource entries. -/
def emptyIndex : ISchemaApi :=
  { apiVersion := "1", apis := [], basePath := "http://a", swaggerVersion := "1.2" }

/-- Generator options with a grouping class configured. -/
def groupOptions : IGenerateApisOptions :=
  { url := "u", dest := "./generated", splitInterfaces := false, groupClass := "Grouped" }

/-- Sample fetch URL. -/
def urlPets : String := "http://x.y/pets"

/-- A network whose every response body is the compact document
`\x7b"a":1\x7d`. -/
def netCompact : String → String := fun _ => "\x7b\"a\":1\x7d"

/-- A network whose every response body is the document `null`. -/
def netNull : String → String := fun _ => "null"

/-- An empty cache, no fetches issued yet. -/
def emptyLoader : LoaderState := ⟨[], 0⟩

/-! ## Basic string and character lemmas -/

theorem string_mk_append (a b : List Char) : String.mk a ++ String.mk b = String.mk (a ++ b) := rfl

theorem string_mk_data (s : String) : String.mk s.data = s := by cases s; rfl

theorem string_data_inj {a b : String} (h : a.data = b.data) : a = b := by
  cases a
  cases b
  simp only [String.data] at h
  rw [h]

theorem char_toNat_ofNat_valid (n : Nat) (h : n.isValidChar) : (Char.ofNat n).toNat = n := by
  simp [Char.ofNat]
  rw [dif_pos h]
  simp [Char.ofNatAux, Char.toNat, UInt32.toNat, BitVec.toNat_ofNatLt]

theorem char_toLower_ne (c : Char) (h : c.isUpper = true) : c.toLower ≠ c := by
  simp only [Char.isUpper, Bool.and_eq_true, decide_eq_true_eq] at h
  have hb : 65 ≤ c.toNat ∧ c.toNat ≤ 90 := h
  intro heq
  have hvalid : (Char.toNat c + 32).isValidChar := by
    left
    omega
  have hv : c.toLower.toNat = c.toNat + 32 := by
    simp only [Char.toLower]
    rw [if_pos hb]
    exact char_toNat_ofNat_valid _ hvalid
  rw [heq] at hv
  omega

theorem string_append_left_cancel {a b c : String} (h : a ++ b = a ++ c) : b = c := by
  apply string_data_inj
  have hd := congrArg String.data h
  simp only [String.data_append] at hd
  exact List.append_cancel_left hd

/-! ## C1: optionality of the generated method's options argument -/

/-- Claim C1: the generated method's single options argument carries the
optional marker `?` iff no parameter of the operation is required; an
operation with zero parameters yields an optional options argument, and
a non-empty all-required parameter list yields a required one. -/
theorem options_arg_optional_iff (op : IOperation) :
    (optionsArgMarker op = "?" ↔ ∀ p ∈ op.parameters, p.required = false) ∧
    (op.parameters = [] → optionsArgMarker op = "?") ∧
    (op.parameters ≠ [] → (∀ p ∈ op.parameters, p.required = true) →
      optionsArgMarker op = "") := by
  have hiff : optionsArgMarker op = "?" ↔ (op.parameters.any fun o => o.required) = false := by
    unfold optionsArgMarker
    cases h : op.parameters.any fun o => o.required <;>
      simp [h, show ("" : String) ≠ "?" from by decide]
  refine ⟨?_, ?_, ?_⟩
  · rw [hiff, List.any_eq_false]
    simp
  · intro h
    rw [hiff, h]
    rfl
  · intro hne hall
    have hany : (op.parameters.any fun o => o.required) = true := by
      rw [List.any_eq_true]
      obtain ⟨p, hmem⟩ := List.exists_mem_of_ne_nil op.parameters hne
      exact ⟨p, hmem, by simpa using hall p hmem⟩
    unfold optionsArgMarker
    rw [hany]
    rfl

/-- Witness for C1 at concrete operations: `baseOp` has zero parameters
and an optional options argument; `petOp` has one required parameter and
a required options argument. -/
theorem options_arg_optional_iff_witness :
    optionsArgMarker baseOp = "?" ∧ optionsArgMarker petOp = "" :=
  ⟨(options_arg_optional_iff baseOp).2.1 rfl,
   (options_arg_optional_iff petOp).2.2 (by decide) (by decide)⟩

/-! ## C4: naming of the options declaration -/

/-- Claim C4, counterexample: for the nickname `getPet` the generated
options declaration is named `IgetPetOptions`, not `IGetPetOptions` as
the claim's example states. -/
theorem options_name_counterexample :
    baseOp.nickname = "getPet" ∧
    getTsOperationOptionsInterfaceName baseOp = "IgetPetOptions" ∧
    getTsOperationOptionsInterfaceName baseOp ≠ "IGetPetOptions" :=
  ⟨rfl, rfl, by decide⟩

/-- Claim C4 as amended: the options declaration name is the fixed
prefix `I`, the operation's nickname verbatim, and the fixed suffix
`Options`; for nickname `getPet` this is `IgetPetOptions`. -/
theorem options_name_shape (op : IOperation) :
    getTsOperationOptionsInterfaceName op = "I" ++ op.nickname ++ "Options" ∧
    (op.nickname = "getPet" → getTsOperationOptionsInterfaceName op = "IgetPetOptions") := by
  refine ⟨rfl, ?_⟩
  intro h
  simp [getTsOperationOptionsInterfaceName, h]

/-- Witness for C4's amended claim at the concrete `getPet` operation. -/
theorem options_name_shape_witness :
    getTsOperationOptionsInterfaceName baseOp = "I" ++ baseOp.nickname ++ "Options" ∧
    getTsOperationOptionsInterfaceName baseOp = "IgetPetOptions" :=
  ⟨(options_name_shape baseOp).1, (options_name_shape baseOp).2 rfl⟩

/-! ## C5: optionality of model properties -/

/-- Claim C5: the emitted model field carries the optional marker `?`
iff the property name is absent from the model's required-field list
(`tsInterfaceField` renders each property with this marker). -/
theorem property_marker_iff (model : IModel) (name : String) :
    propertyRequiredMarker model name = "?" ↔ name ∉ model.required := by
  unfold propertyRequiredMarker
  by_cases h : name ∈ model.required
  · simp [List.elem_iff.mpr h, h, show ("" : String) ≠ "?" from by decide]
  · have : model.required.contains name = false := by
      rw [← Bool.not_eq_true]
      intro hc
      exact h (List.elem_iff.mp hc)
    simp [this, h]

/-! ## C9: method name vs nickname -/

/-- Claim C9: the generated method name is the nickname with its first
character lowercased (rest unchanged), the options declaration embeds
the nickname verbatim, and an uppercase-initial nickname yields a method
name different from the nickname. -/
theorem method_name_lower_first (op : IOperation) :
    tsMethodName op = specLowerFirst op.nickname ∧
    getTsOperationOptionsInterfaceName op = "I" ++ op.nickname ++ "Options" ∧
    (∀ c cs, op.nickname.data = c :: cs → c.isUpper = true →
      tsMethodName op ≠ op.nickname) := by
  have hmain : tsMethodName op = specLowerFirst op.nickname := by
    unfold tsMethodName unTitleCase specLowerFirst charAt substrFrom strLower
    cases hd : op.nickname.data with
    | nil => simp [hd]
    | cons c cs => simp [hd, string_mk_append]
  refine ⟨hmain, rfl, ?_⟩
  intro c cs hd hu heq
  rw [hmain] at heq
  unfold specLowerFirst at heq
  rw [hd] at heq
  have hdata := congrArg String.data heq
  simp only [String.data] at hdata
  rw [hd] at hdata
  have : c.toLower = c := by
    have := congrArg (fun l => l.head?) hdata
    simpa using this
  exact char_toLower_ne c hu this

/-- Witness for C9 at the concrete nickname `GetPet`: the method name is
`getPet`, which differs from the nickname. -/
theorem method_name_lower_first_witness :
    tsMethodName titleOp = specLowerFirst titleOp.nickname ∧
    tsMethodName titleOp ≠ titleOp.nickname :=
  ⟨(method_name_lower_first titleOp).1,
   (method_name_lower_first titleOp).2.2 'G' "etPet".data rfl (by decide)⟩

/-! ## C10: bare `array`-tagged properties -/

/-- Claim C10: a property tagged `array` with no `items` sub-schema and
no `$ref` renders as the literal type text `array` (the permissive
`mapType` fallback), not as an array type expression. -/
theorem bare_array_type_text (p : IModelProperty)
    (h1 : p.type = some "array") (h2 : p.items = none) (h3 : p.ref = none) :
    getTsPropertyType p = "array" := by
  rcases p with ⟨ty, des, it, fmt, r⟩
  simp only [IModelProperty.type] at h1
  simp only [IModelProperty.items] at h2
  simp only [IModelProperty.ref] at h3
  subst h1 h2 h3
  simp [getTsPropertyType, mapType]

/-- Witness for C10 at the concrete bare `array` property. -/
theorem bare_array_type_text_witness : getTsPropertyType bareArrayProp = "array" :=
  bare_array_type_text bareArrayProp rfl rfl rfl

/-! ## C2: the three option sub-shape fields -/

theorem getTsParam_length_pos (p : IParameter) : 0 < (getTsParam p).length := by
  have h1 : (";" : String).length = 1 := rfl
  simp only [getTsParam, String.length_append]
  omega

theorem getTsParam_ne_empty (p : IParameter) : getTsParam p ≠ "" := by
  intro h
  have := getTsParam_length_pos p
  rw [h] at this
  simp at this

theorem concat_params_eq_empty_iff (l : List IParameter) :
    concatStrings (l.map getTsParam) = "" ↔ l = [] := by
  cases l with
  | nil => simp [concatStrings]
  | cons p t =>
    simp only [List.map_cons, concatStrings]
    constructor
    · intro h
      have hlen := congrArg String.length h
      simp only [String.length_append] at hlen
      have := getTsParam_length_pos p
      have h0 : ("" : String).length = 0 := rfl
      omega
    · intro h
      exact absurd h (by simp)

theorem optionGroups_foldl (params : List IParameter) (init : String × String × String) :
    List.foldl
      (fun acc param =>
        let b := if param.paramType = some "body" then acc.1 ++ getTsParam param else acc.1
        let q := if param.paramType = some "query" then acc.2.1 ++ getTsParam param else acc.2.1
        let p := if param.paramType = some "path" then acc.2.2 ++ getTsParam param else acc.2.2
        (b, q, p))
      init params
    = (init.1 ++ groupStrings "body" params,
       init.2.1 ++ groupStrings "query" params,
       init.2.2 ++ groupStrings "path" params) := by
  induction params generalizing init with
  | nil => simp [groupStrings, concatStrings]
  | cons p t ih =>
    rw [List.foldl_cons, ih]
    have hcons : ∀ loc : String, groupStrings loc (p :: t)
        = (if p.paramType = some loc then getTsParam p ++ groupStrings loc t
           else groupStrings loc t) := by
      intro loc
      unfold groupStrings
      rw [List.filter_cons]
      by_cases h : p.paramType = some loc
      · simp [h, concatStrings]
      · simp [h]
    rw [hcons "body", hcons "query", hcons "path"]
    by_cases hb : p.paramType = some "body" <;>
      by_cases hq : p.paramType = some "query" <;>
      by_cases hp : p.paramType = some "path" <;>
      simp [hb, hq, hp, String.append_assoc]

theorem optionGroups_eq (params : List IParameter) :
    optionGroups params
      = (groupStrings "body" params, groupStrings "query" params, groupStrings "path" params) := by
  unfold optionGroups
  rw [optionGroups_foldl]
  simp

/-- Claim C2: each of the three parameter groups renders a sub-shape
field exactly when the group is non-empty (`optionGroups` yields a
non-empty group string iff some parameter has that location), and the
field's required marker is present (`bodyRequired` &c. are `false`) iff
no parameter of the group is required. -/
theorem option_groups_fields (op : IOperation) :
    ((optionGroups op.parameters).1 ≠ "" ↔
      ∃ p ∈ op.parameters, p.paramType = some "body") ∧
    (bodyRequired op = true ↔
      ∃ p ∈ op.parameters, p.paramType = some "body" ∧ p.required = true) ∧
    ((optionGroups op.parameters).2.1 ≠ "" ↔
      ∃ p ∈ op.parameters, p.paramType = some "query") ∧
    (queryRequired op = true ↔
      ∃ p ∈ op.parameters, p.paramType = some "query" ∧ p.required = true) ∧
    ((optionGroups op.parameters).2.2 ≠ "" ↔
      ∃ p ∈ op.parameters, p.paramType = some "path") ∧
    (paramsRequired op = true ↔
      ∃ p ∈ op.parameters, p.paramType = some "path" ∧ p.required = true) := by
  rw [optionGroups_eq]
  have hgroup : ∀ loc : String, (groupStrings loc op.parameters ≠ "" ↔
      ∃ p ∈ op.parameters, p.paramType = some loc) := by
    intro loc
    unfold groupStrings
    rw [ne_eq, concat_params_eq_empty_iff, ← ne_eq]
    rw [ne_eq, List.filter_eq_nil_iff]
    simp
  have hreq : ∀ loc : String,
      ((op.parameters.filter (fun o => o.paramType = some loc)).any (fun o => o.required) = true ↔
        ∃ p ∈ op.parameters, p.paramType = some loc ∧ p.required = true) := by
    intro loc
    rw [List.any_eq_true]
    constructor
    · rintro ⟨p, hmem, hr⟩
      rw [List.mem_filter] at hmem
      exact ⟨p, hmem.1, by simpa using hmem.2, hr⟩
    · rintro ⟨p, hmem, hloc, hr⟩
      exact ⟨p, List.mem_filter.mpr ⟨hmem, by simpa using hloc⟩, hr⟩
  exact ⟨hgroup "body", hreq "body", hgroup "query", hreq "query", hgroup "path", hreq "path"⟩

/-! ## C6: import lines in split-interfaces mode -/

/-- Claim C6, counterexample: a model whose two properties reference the
same model `X` renders two identical import lines (no deduplication in
`getTsInterface`), so a referenced identifier does not appear exactly
once. -/
theorem split_imports_counterexample :
    refNames modelDupRef = ["IX", "IX"] ∧
    (refNames modelDupRef).count "IX" = 2 ∧
    ¬ (refNames modelDupRef).Nodup ∧
    getTsInterface modelDupRef splitOptions =
      "import \x7b IX \x7d from \"./IX\";\nimport \x7b IX \x7d from \"./IX\";\n\nexport interface IM \x7b\n\n  a?: IX;\n\n  b?: IX;\n\x7d" :=
  ⟨rfl, by decide, by decide, rfl⟩

theorem count_filterMap_str {α : Type} (f : α → Option String) (l : List α) (s : String) :
    ((l.filterMap f).count s) = l.countP (fun a => f a = some s) := by
  induction l with
  | nil => simp
  | cons x t ih =>
    cases hfx : f x with
    | none => simp [List.filterMap_cons, hfx, ih, List.countP_cons]
    | some y =>
      by_cases hy : y = s
      · subst hy
        simp [List.filterMap_cons, hfx, List.count_cons, ih, List.countP_cons]
      · simp [List.filterMap_cons, hfx, List.count_cons, ih, List.countP_cons, hy,
          Option.some_inj]

/-- Claim C6 as amended: in split mode the model declaration is preceded
by one import line per `$ref` occurrence (direct property references
first, then references through `items`), with no deduplication: the
number of import lines naming model `id` equals the number of properties
referencing it plus the number of properties whose array element type
references it. -/
theorem split_imports_count (model : IModel) (id : String) (h : id ≠ "") :
    (refNames model).count ("I" ++ id)
      = model.properties.countP (fun kv => kv.2.ref = some id)
        + model.properties.countP (fun kv => kv.2.items.bind IModelProperty.ref = some id) := by
  unfold refNames
  rw [List.filterMap_append, List.count_append, count_filterMap_str, count_filterMap_str,
    List.countP_map, List.countP_map]
  have hname : ∀ r : String, r ≠ "" →
      ((getTsInterfaceName r = "I" ++ id) ↔ r = id) := by
    intro r hr
    unfold getTsInterfaceName
    rw [if_neg hr]
    constructor
    · exact fun hh => string_append_left_cancel hh
    · intro hh
      rw [hh]
  congr 1
  · apply List.countP_congr
    intro kv _
    simp only [Function.comp, decide_eq_true_eq]
    cases hr : kv.2.ref with
    | none => simp
    | some r =>
      dsimp only
      by_cases hre : r = ""
      · subst hre
        simp only [if_pos rfl]
        constructor
        · intro hh
          exact absurd hh (by simp)
        · intro hh
          exact absurd (Option.some_inj.mp hh).symm h
      · rw [if_neg hre]
        simp only [Option.some.injEq]
        exact hname r hre
  · apply List.countP_congr
    intro kv _
    simp only [Function.comp, decide_eq_true_eq]
    cases hit : kv.2.items with
    | none => simp
    | some it =>
      dsimp only [Option.bind]
      cases hr : it.ref with
      | none => simp
      | some r =>
        dsimp only
        by_cases hre : r = ""
        · subst hre
          simp only [if_pos rfl]
          constructor
          · intro hh
            exact absurd hh (by simp)
          · intro hh
            exact absurd (Option.some_inj.mp hh).symm h
        · rw [if_neg hre]
          simp only [Option.some.injEq]
          exact hname r hre

/-- Witness for C6's amended claim at the duplicate-reference model. -/
theorem split_imports_count_witness :
    (refNames modelDupRef).count ("I" ++ "X")
      = modelDupRef.properties.countP (fun kv => kv.2.ref = some "X")
        + modelDupRef.properties.countP
            (fun kv => kv.2.items.bind IModelProperty.ref = some "X") :=
  split_imports_count modelDupRef "X" (by decide)

/-! ## C7: the grouping merge -/

theorem lookup_map_override (b : List (String × IModel)) (a : List (String × IModel))
    (X : String) :
    List.lookup X (a.map (fun kv =>
        match b.lookup kv.1 with
        | some v => (kv.1, v)
        | none => kv))
      = match a.lookup X with
        | none => none
        | some w => some (match b.lookup X with | some v => v | none => w) := by
  induction a with
  | nil => simp
  | cons kv t ih =>
    obtain ⟨k, w⟩ := kv
    by_cases hx : X = k
    · subst hx
      cases hbk : b.lookup X <;> simp [List.lookup, hbk]
    · have hbeq : (X == k) = false := by simp [hx]
      cases hbk : b.lookup k <;> simp [List.lookup, hbk, hbeq, ih]

theorem lookup_filter_keep (a b : List (String × IModel)) (X : String)
    (ha : a.lookup X = none) :
    List.lookup X (b.filter (fun kv => (a.lookup kv.1).isNone)) = b.lookup X := by
  induction b with
  | nil => simp
  | cons kv t ih =>
    obtain ⟨k, v⟩ := kv
    by_cases hx : X = k
    · subst hx
      simp [List.filter_cons, ha, List.lookup]
    · have hbeq : (X == k) = false := by simp [hx]
      by_cases hk : ((a.lookup k).isNone : Bool) <;>
        simp [List.filter_cons, hk, List.lookup, hbeq, ih]

theorem lookup_append_assoc_list {β : Type} (P Q : List (String × β)) (X : String) :
    List.lookup X (P ++ Q) = ((P.lookup X).or (Q.lookup X)) := by
  induction P with
  | nil => simp
  | cons kv t ih =>
    obtain ⟨k, v⟩ := kv
    by_cases hx : X = k
    · subst hx
      simp [List.lookup]
    · have hbeq : (X == k) = false := by simp [hx]
      simp [List.lookup, hbeq, ih]

theorem objMerge_lookup_right (a b : List (String × IModel)) (X : String) (mB : IModel)
    (hb : b.lookup X = some mB) :
    (objMerge a b).lookup X = some mB := by
  unfold objMerge
  rw [lookup_append_assoc_list, lookup_map_override]
  cases ha : a.lookup X with
  | none =>
    simp only [Option.or]
    rw [lookup_filter_keep a b X ha]
    exact hb
  | some w =>
    simp [hb]

/-- Claim C7: merging fetched resources `[A, B]` that both define model
`X` yields B's definition of `X` in the combined resource
(last-write-wins on model key collisions), and the combined resource's
operation-group list is `A`'s groups followed by `B`'s. -/
theorem grouping_merge_last_wins (A B : IApi) (X : String) (mA mB : IModel)
    (_hA : A.models.lookup X = some mA) (hB : B.models.lookup X = some mB) :
    mergeResources [A, B] = some (mergeApis A B) ∧
    (mergeApis A B).models.lookup X = some mB ∧
    (mergeApis A B).apis = A.apis ++ B.apis := by
  refine ⟨rfl, ?_, rfl⟩
  show (objMerge A.models B.models).lookup X = some mB
  exact objMerge_lookup_right A.models B.models X mB hB

/-- Witness for C7 at concrete resources both defining model `X`. -/
theorem grouping_merge_last_wins_witness :
    mergeResources [apiA, apiB] = some (mergeApis apiA apiB) ∧
    (mergeApis apiA apiB).models.lookup "X" = some modelXB ∧
    (mergeApis apiA apiB).apis = apiA.apis ++ apiB.apis :=
  grouping_merge_last_wins apiA apiB "X" modelXA modelXB rfl rfl

/-! ## C8: grouping with an empty schema index -/

/-- Claim C8: with a grouping class configured and a schema index
holding zero resource entries, the run writes only the copied base
template and then fails (the merge reduces an empty list with no initial
accumulator), writing no group class file. -/
theorem group_empty_index_aborts (options : IGenerateApisOptions) (index : ISchemaApi)
    (fetchApi : String → IApi)
    (hg : options.groupClass ≠ "") (he : index.apis = []) :
    generateApisRun options index fetchApi
      = ([(options.dest ++ "/Api.ts", apiTemplateText)], false) := by
  unfold generateApisRun
  rw [he]
  simp only [List.foldl_nil]
  rw [if_pos hg]
  rfl

/-- Witness for C8 at a concrete empty index with grouping configured. -/
theorem group_empty_index_aborts_witness :
    generateApisRun groupOptions emptyIndex (fun _ => baseApi)
      = ([(groupOptions.dest ++ "/Api.ts", apiTemplateText)], false) :=
  group_empty_index_aborts groupOptions emptyIndex (fun _ => baseApi) (by decide) rfl

/-! ## C3, part 1: whitespace, string-body and digit parsing lemmas -/

theorem skipWs_cons_not {c : Char} (h : isJsonWs c = false) (cs : List Char) :
    skipWs (c :: cs) = c :: cs := by
  simp [skipWs, h]

theorem skipWs_cons_ws {c : Char} (h : isJsonWs c = true) (cs : List Char) :
    skipWs (c :: cs) = skipWs cs := by
  simp [skipWs, h]

theorem skipWs_spaces (n : Nat) (cs : List Char) :
    skipWs (spacesC n ++ cs) = skipWs cs := by
  induction n with
  | zero => simp [spacesC]
  | succ k ih =>
    have : spacesC (k + 1) = ' ' :: spacesC k := by
      simp [spacesC, List.replicate_succ]
    rw [this, List.cons_append, skipWs_cons_ws (by decide)]
    exact ih

theorem skipWs_idem (cs : List Char) : skipWs (skipWs cs) = skipWs cs := by
  induction cs with
  | nil => simp [skipWs]
  | cons c t ih =>
    cases h : isJsonWs c with
    | true => rw [skipWs_cons_ws h]; exact ih
    | false => rw [skipWs_cons_not h, skipWs_cons_not h]

theorem parseVal_skipWs (fuel : Nat) (cs : List Char) :
    parseVal fuel cs = parseVal fuel (skipWs cs) := by
  cases fuel with
  | zero => rfl
  | succ f =>
    simp only [parseVal]
    rw [skipWs_idem]

theorem parseStringBody_escape (s : List Char) (rest : List Char) :
    parseStringBody (escapeChars s ++ ('"' :: rest)) = some (s, rest) := by
  induction s with
  | nil =>
    have he : escapeChars [] = [] := rfl
    rw [he, List.nil_append]
    unfold parseStringBody
    rw [if_pos rfl]
  | cons c t ih =>
    have hstep : escapeChars (c :: t) = escapeChar c ++ escapeChars t := by
      simp [escapeChars]
    rw [hstep, List.append_assoc]
    by_cases h1 : c = '"'
    · subst h1
      simp [escapeChar, parseStringBody, ih, unescapeChar]
    · by_cases h2 : c = '\\'
      · subst h2
        simp [escapeChar, parseStringBody, ih, unescapeChar]
      · by_cases h3 : c = '\n'
        · subst h3
          simp [escapeChar, parseStringBody, ih, unescapeChar]
        · by_cases h4 : c = '\t'
          · subst h4
            simp [escapeChar, parseStringBody, ih, unescapeChar]
          · by_cases h5 : c = '\r'
            · subst h5
              simp [escapeChar, parseStringBody, ih, unescapeChar]
            · simp only [escapeChar, if_neg h1, if_neg h2, if_neg h3, if_neg h4, if_neg h5]
              rw [List.cons_append, List.nil_append]
              unfold parseStringBody
              rw [if_neg h1, if_neg h2, ih]

theorem digitChar_isDigit (n : Nat) : (digitChar n).isDigit = true := by
  unfold digitChar
  split <;> decide

theorem digitVal_digitChar (n : Nat) (h : n < 10) : digitVal (digitChar n) = n := by
  interval_cases n <;> decide

theorem natCharsAux_ne_nil (fuel n : Nat) (h : n < fuel) :
    ∃ d t, natCharsAux fuel n = d :: t ∧ d.isDigit = true := by
  induction fuel generalizing n with
  | zero => omega
  | succ f ih =>
    by_cases h10 : n < 10
    · exact ⟨digitChar n, [], by simp [natCharsAux, h10], digitChar_isDigit n⟩
    · have hdiv : n / 10 < f := by omega
      obtain ⟨d, t, hdt, hd⟩ := ih (n / 10) hdiv
      refine ⟨d, t ++ [digitChar (n % 10)], ?_, hd⟩
      simp [natCharsAux, h10, hdt]

theorem parseNatAux_digits (fuel : Nat) :
    ∀ n acc rest, n < fuel →
      parseNatAux acc (natCharsAux fuel n ++ rest)
        = parseNatAux (acc * 10 ^ (natCharsAux fuel n).length + n) rest := by
  induction fuel with
  | zero => intro n acc rest h; omega
  | succ f ih =>
    intro n acc rest h
    by_cases h10 : n < 10
    · simp only [natCharsAux, if_pos h10]
      simp only [List.cons_append, List.nil_append, parseNatAux, digitChar_isDigit,
        if_pos]
      rw [digitVal_digitChar n h10]
      simp
    · have hdiv : n / 10 < f := by omega
      simp only [natCharsAux, if_neg h10]
      rw [List.append_assoc, ih (n / 10) acc _ hdiv]
      simp only [List.cons_append, List.nil_append, parseNatAux, digitChar_isDigit,
        if_pos]
      rw [digitVal_digitChar (n % 10) (by omega)]
      congr 1
      rw [List.length_append, List.length_cons, List.length_nil]
      simp only [Nat.zero_add]
      rw [pow_succ, ← mul_assoc]
      generalize acc * 10 ^ (natCharsAux f (n / 10)).length = B
      omega

theorem parseNatAux_stop (m : Nat) (rest : List Char) (h : noDigitStart rest) :
    parseNatAux m rest = (m, rest) := by
  cases rest with
  | nil => rfl
  | cons c t =>
    unfold noDigitStart at h
    simp [parseNatAux, h]

theorem parseNat_natChars (n : Nat) (rest : List Char) (h : noDigitStart rest) :
    parseNatAux 0 (natChars n ++ rest) = (n, rest) := by
  unfold natChars
  rw [parseNatAux_digits (n + 1) n 0 rest (by omega)]
  rw [parseNatAux_stop _ _ h]
  simp

/-! ## C3, part 2: head-character facts of the pretty-printer output -/

theorem startChar_facts (c : Char)
    (h : c = '"' ∨ c = '[' ∨ c = lbraceC ∨ c = 'n' ∨ c = 't' ∨ c = 'f' ∨ c = '-'
          ∨ c.isDigit = true) :
    isJsonWs c = false ∧ c ≠ ']' ∧ c ≠ rbraceC ∧ c ≠ ',' ∧ c ≠ ':' := by
  have hdigit : c.isDigit = true →
      isJsonWs c = false ∧ c ≠ ']' ∧ c ≠ rbraceC ∧ c ≠ ',' ∧ c ≠ ':' := by
    intro hd
    refine ⟨?_, ?_, ?_, ?_, ?_⟩
    · apply decide_eq_false
      rintro (rfl | rfl | rfl | rfl) <;> exact absurd hd (by decide)
    · intro hc
      rw [hc] at hd
      exact absurd hd (by decide)
    · intro hc
      rw [hc] at hd
      exact absurd hd (by decide)
    · intro hc
      rw [hc] at hd
      exact absurd hd (by decide)
    · intro hc
      rw [hc] at hd
      exact absurd hd (by decide)
  rcases h with rfl | rfl | rfl | rfl | rfl | rfl | rfl | hd
  · exact ⟨by decide, by decide, by decide, by decide, by decide⟩
  · exact ⟨by decide, by decide, by decide, by decide, by decide⟩
  · exact ⟨by decide, by decide, by decide, by decide, by decide⟩
  · exact ⟨by decide, by decide, by decide, by decide, by decide⟩
  · exact ⟨by decide, by decide, by decide, by decide, by decide⟩
  · exact ⟨by decide, by decide, by decide, by decide, by decide⟩
  · exact ⟨by decide, by decide, by decide, by decide, by decide⟩
  · exact hdigit hd

theorem natChars_head (n : Nat) :
    ∃ d t, natChars n = d :: t ∧ d.isDigit = true := by
  unfold natChars
  exact natCharsAux_ne_nil (n + 1) n (by omega)

theorem sv_head (ind : Nat) (v : Json) :
    ∃ c t, stringifyVal ind v = c :: t ∧
      (c = '"' ∨ c = '[' ∨ c = lbraceC ∨ c = 'n' ∨ c = 't' ∨ c = 'f' ∨ c = '-'
        ∨ c.isDigit = true) := by
  cases v with
  | null => exact ⟨'n', "ull".data, by simp [stringifyVal], by simp⟩
  | bool b =>
    cases b with
    | true => exact ⟨'t', "rue".data, by simp [stringifyVal], by simp⟩
    | false => exact ⟨'f', "alse".data, by simp [stringifyVal], by simp⟩
  | num n =>
    by_cases hn : n < 0
    · refine ⟨'-', natChars n.natAbs, ?_, by simp⟩
      simp [stringifyVal, intChars, hn]
    · obtain ⟨d, t, hdt, hd⟩ := natChars_head n.natAbs
      refine ⟨d, t, ?_, by simp [hd]⟩
      simp [stringifyVal, intChars, hn, hdt]
  | str s => exact ⟨'"', escapeChars s.data ++ ['"'], by simp [stringifyVal], by simp⟩
  | arr xs =>
    cases xs with
    | nil => exact ⟨'[', [']'], by simp [stringifyVal], by simp⟩
    | cons x t =>
      exact ⟨'[', '\n' :: (spacesC (ind + 2) ++ (stringifyVal (ind + 2) x
        ++ stringifyArrTail ind t)), by simp [stringifyVal], by simp⟩
  | obj ms =>
    cases ms with
    | nil => exact ⟨lbraceC, [rbraceC], by simp [stringifyVal], by simp⟩
    | cons m t =>
      exact ⟨lbraceC, '\n' :: (spacesC (ind + 2) ++ (stringifyMember (ind + 2) m
        ++ stringifyObjTail ind t)), by simp [stringifyVal], by simp⟩

theorem sat_head (ind : Nat) (xs : List Json) :
    ∃ c t, stringifyArrTail ind xs = c :: t ∧ (c = ',' ∨ c = '\n') := by
  cases xs with
  | nil => exact ⟨'\n', spacesC ind ++ [']'], by simp [stringifyArrTail], by simp⟩
  | cons y t =>
    exact ⟨',', '\n' :: (spacesC (ind + 2) ++ (stringifyVal (ind + 2) y
      ++ stringifyArrTail ind t)), by simp [stringifyArrTail], by simp⟩

theorem sot_head (ind : Nat) (ms : List (String × Json)) :
    ∃ c t, stringifyObjTail ind ms = c :: t ∧ (c = ',' ∨ c = '\n') := by
  cases ms with
  | nil => exact ⟨'\n', spacesC ind ++ [rbraceC], by simp [stringifyObjTail], by simp⟩
  | cons m t =>
    exact ⟨',', '\n' :: (spacesC (ind + 2) ++ (stringifyMember (ind + 2) m
      ++ stringifyObjTail ind t)), by simp [stringifyObjTail], by simp⟩

theorem noDigitStart_cons {c : Char} (h : c.isDigit = false) (t : List Char) :
    noDigitStart (c :: t) := h

theorem noDigitStart_sat (ind : Nat) (xs : List Json) (rest : List Char) :
    noDigitStart (stringifyArrTail ind xs ++ rest) := by
  obtain ⟨c, t, hct, hc⟩ := sat_head ind xs
  rw [hct, List.cons_append]
  rcases hc with rfl | rfl <;> exact noDigitStart_cons (by decide) _

theorem noDigitStart_sot (ind : Nat) (ms : List (String × Json)) (rest : List Char) :
    noDigitStart (stringifyObjTail ind ms ++ rest) := by
  obtain ⟨c, t, hct, hc⟩ := sot_head ind ms
  rw [hct, List.cons_append]
  rcases hc with rfl | rfl <;> exact noDigitStart_cons (by decide) _

theorem skipWs_sv (ind : Nat) (v : Json) (X : List Char) :
    skipWs (stringifyVal ind v ++ X) = stringifyVal ind v ++ X := by
  obtain ⟨c, t, hct, hc⟩ := sv_head ind v
  rw [hct, List.cons_append]
  exact skipWs_cons_not (startChar_facts c hc).1 _

/-! ## C3, part 3: the parser inverts the pretty-printer -/

theorem isDigit_ne (c c0 : Char) (h : c.isDigit = true) (h0 : c0.isDigit = false) :
    c ≠ c0 := by
  intro heq
  rw [heq] at h
  rw [h] at h0
  cases h0

theorem parse_stringify_round (fuel : Nat) :
    (∀ (v : Json) (ind : Nat) (rest : List Char),
        (stringifyVal ind v).length < fuel → noDigitStart rest →
        parseVal fuel (stringifyVal ind v ++ rest) = some (v, rest)) ∧
    (∀ (xs : List Json) (ind : Nat) (rest : List Char),
        (stringifyArrTail ind xs).length < fuel →
        parseArrTail fuel (stringifyArrTail ind xs ++ rest) = some (xs, rest)) ∧
    (∀ (ms : List (String × Json)) (ind : Nat) (rest : List Char),
        (stringifyObjTail ind ms).length < fuel →
        parseObjTail fuel (stringifyObjTail ind ms ++ rest) = some (ms, rest)) := by
  induction fuel with
  | zero =>
    refine ⟨fun v ind rest hlen _ => absurd hlen (Nat.not_lt_zero _),
      fun xs ind rest hlen => absurd hlen (Nat.not_lt_zero _),
      fun ms ind rest hlen => absurd hlen (Nat.not_lt_zero _)⟩
  | succ fuel ih =>
    obtain ⟨ihV, ihA, ihO⟩ := ih
    refine ⟨?_, ?_, ?_⟩
    · -- parseVal
      intro v ind rest hlen hnd
      cases v with
      | null =>
        have he : stringifyVal ind Json.null = ['n', 'u', 'l', 'l'] := by
          simp [stringifyVal]
        rw [he]
        simp only [List.cons_append, List.nil_append]
        unfold parseVal
        rw [skipWs_cons_not (by decide)]
        simp [show ('n' : Char) ≠ lbraceC from by decide]
      | bool b =>
        cases b with
        | true =>
          have he : stringifyVal ind (Json.bool true) = ['t', 'r', 'u', 'e'] := by
            simp [stringifyVal]
          rw [he]
          simp only [List.cons_append, List.nil_append]
          unfold parseVal
          rw [skipWs_cons_not (by decide)]
          simp [show ('t' : Char) ≠ lbraceC from by decide]
        | false =>
          have he : stringifyVal ind (Json.bool false) = ['f', 'a', 'l', 's', 'e'] := by
            simp [stringifyVal]
          rw [he]
          simp only [List.cons_append, List.nil_append]
          unfold parseVal
          rw [skipWs_cons_not (by decide)]
          simp [show ('f' : Char) ≠ lbraceC from by decide]
      | num n =>
        have he : stringifyVal ind (Json.num n) = intChars n := by
          simp [stringifyVal]
        rw [he]
        by_cases hn : n < 0
        · obtain ⟨d, t, hdt, hd⟩ := natChars_head n.natAbs
          have he2 : intChars n = '-' :: natChars n.natAbs := by
            simp [intChars, hn]
          rw [he2]
          simp only [List.cons_append]
          unfold parseVal
          rw [skipWs_cons_not (by decide)]
          dsimp only
          rw [if_neg (by decide : ¬ ('-' : Char) = '"'),
            if_neg (by decide : ¬ ('-' : Char) = '['),
            if_neg (by decide : ¬ ('-' : Char) = lbraceC),
            if_neg (by decide : ¬ ('-' : Char) = 'n'),
            if_neg (by decide : ¬ ('-' : Char) = 't'),
            if_neg (by decide : ¬ ('-' : Char) = 'f'),
            if_pos rfl]
          rw [hdt]
          simp only [List.cons_append]
          rw [if_pos hd]
          have hp : parseNatAux 0 (d :: (t ++ rest)) = (n.natAbs, rest) := by
            rw [← List.cons_append, ← hdt]
            exact parseNat_natChars n.natAbs rest hnd
          rw [hp]
          have hval : (-(n.natAbs : Int)) = n := by omega
          rw [hval]
        · obtain ⟨d, t, hdt, hd⟩ := natChars_head n.natAbs
          have he2 : intChars n = natChars n.natAbs := by
            simp [intChars, hn]
          rw [he2, hdt]
          simp only [List.cons_append]
          unfold parseVal
          rw [skipWs_cons_not (startChar_facts d (by simp [hd])).1]
          dsimp only
          rw [if_neg (isDigit_ne d '"' hd (by decide)),
            if_neg (isDigit_ne d '[' hd (by decide)),
            if_neg (isDigit_ne d lbraceC hd (by decide)),
            if_neg (isDigit_ne d 'n' hd (by decide)),
            if_neg (isDigit_ne d 't' hd (by decide)),
            if_neg (isDigit_ne d 'f' hd (by decide)),
            if_neg (isDigit_ne d '-' hd (by decide)),
            if_pos hd]
          have hp : parseNatAux 0 (d :: (t ++ rest)) = (n.natAbs, rest) := by
            rw [← List.cons_append, ← hdt]
            exact parseNat_natChars n.natAbs rest hnd
          rw [hp]
          have hval : ((n.natAbs : Int)) = n := by omega
          rw [hval]
      | str s =>
        have he : stringifyVal ind (Json.str s)
            = '"' :: (escapeChars s.data ++ ['"']) := by
          simp [stringifyVal]
        rw [he]
        simp only [List.cons_append, List.append_assoc, List.singleton_append]
        unfold parseVal
        rw [skipWs_cons_not (by decide)]
        dsimp only
        rw [if_pos rfl]
        rw [parseStringBody_escape]
        simp [string_mk_data]
      | arr xs =>
        cases xs with
        | nil =>
          have he : stringifyVal ind (Json.arr []) = ['[', ']'] := by
            simp [stringifyVal]
          rw [he]
          simp only [List.cons_append, List.nil_append]
          unfold parseVal
          rw [skipWs_cons_not (by decide)]
          dsimp only
          rw [if_neg (by decide : ¬ ('[' : Char) = '"'), if_pos rfl]
          rw [skipWs_cons_not (by decide)]
          dsimp only
          rw [if_pos rfl]
        | cons x t =>
          have he : stringifyVal ind (Json.arr (x :: t))
              = '[' :: '\n' :: (spacesC (ind + 2)
                  ++ (stringifyVal (ind + 2) x ++ stringifyArrTail ind t)) := by
            simp [stringifyVal]
          have hlx : (stringifyVal (ind + 2) x).length < fuel := by
            rw [he] at hlen
            simp only [List.length_cons, List.length_append, spacesC,
              List.length_replicate] at hlen
            omega
          have hlt : (stringifyArrTail ind t).length < fuel := by
            rw [he] at hlen
            simp only [List.length_cons, List.length_append, spacesC,
              List.length_replicate] at hlen
            omega
          rw [he]
          simp only [List.cons_append, List.append_assoc]
          unfold parseVal
          rw [skipWs_cons_not (by decide)]
          dsimp only
          rw [if_neg (by decide : ¬ ('[' : Char) = '"'), if_pos rfl]
          rw [skipWs_cons_ws (by decide), skipWs_spaces, skipWs_sv]
          obtain ⟨c, ct, hct, hc⟩ := sv_head (ind + 2) x
          rw [hct]
          simp only [List.cons_append]
          rw [if_neg (startChar_facts c hc).2.1]
          rw [← List.cons_append, ← hct]
          rw [ihV x (ind + 2) (stringifyArrTail ind t ++ rest) hlx
            (noDigitStart_sat ind t rest)]
          dsimp only
          rw [ihA t ind rest hlt]
      | obj ms =>
        cases ms with
        | nil =>
          have he : stringifyVal ind (Json.obj []) = [lbraceC, rbraceC] := by
            simp [stringifyVal]
          rw [he]
          simp only [List.cons_append, List.nil_append]
          unfold parseVal
          rw [skipWs_cons_not (by decide)]
          dsimp only
          rw [if_neg (by decide : ¬ lbraceC = '"'), if_neg (by decide : ¬ lbraceC = '['),
            if_pos rfl]
          rw [skipWs_cons_not (by decide)]
          dsimp only
          rw [if_pos rfl]
        | cons m ms =>
          have he : stringifyVal ind (Json.obj (m :: ms))
              = lbraceC :: '\n' :: (spacesC (ind + 2)
                  ++ (stringifyMember (ind + 2) m ++ stringifyObjTail ind ms)) := by
            simp [stringifyVal]
          have hm : stringifyMember (ind + 2) m
              = '"' :: (escapeChars m.1.data
                  ++ ('"' :: ':' :: ' ' :: stringifyVal (ind + 2) m.2)) := by
            simp [stringifyMember]
          have hlx : (stringifyVal (ind + 2) m.2).length < fuel := by
            rw [he, hm] at hlen
            simp only [List.length_cons, List.length_append, spacesC,
              List.length_replicate] at hlen
            omega
          have hlt : (stringifyObjTail ind ms).length < fuel := by
            rw [he] at hlen
            simp only [List.length_cons, List.length_append, spacesC,
              List.length_replicate] at hlen
            omega
          rw [he, hm]
          simp only [List.cons_append, List.append_assoc]
          unfold parseVal
          rw [skipWs_cons_not (by decide)]
          dsimp only
          rw [if_neg (by decide : ¬ lbraceC = '"'), if_neg (by decide : ¬ lbraceC = '['),
            if_pos rfl]
          rw [skipWs_cons_ws (by decide), skipWs_spaces, skipWs_cons_not (by decide)]
          dsimp only
          rw [if_neg (by decide : ¬ ('"' : Char) = rbraceC), if_pos rfl]
          rw [parseStringBody_escape]
          dsimp only
          rw [skipWs_cons_not (by decide)]
          dsimp only
          rw [if_pos rfl]
          rw [parseVal_skipWs, skipWs_cons_ws (by decide), skipWs_sv]
          rw [ihV m.2 (ind + 2) (stringifyObjTail ind ms ++ rest) hlx
            (noDigitStart_sot ind ms rest)]
          dsimp only
          rw [ihO ms ind rest hlt]
    · -- parseArrTail
      intro xs ind rest hlen
      cases xs with
      | nil =>
        have he : stringifyArrTail ind [] = '\n' :: (spacesC ind ++ [']']) := by
          simp [stringifyArrTail]
        rw [he]
        simp only [List.cons_append, List.append_assoc, List.singleton_append]
        unfold parseArrTail
        rw [skipWs_cons_ws (by decide), skipWs_spaces, skipWs_cons_not (by decide)]
        dsimp only
        rw [if_neg (by decide : ¬ (']' : Char) = ','), if_pos rfl]
        simp
      | cons y ys =>
        have he : stringifyArrTail ind (y :: ys)
            = ',' :: '\n' :: (spacesC (ind + 2)
                ++ (stringifyVal (ind + 2) y ++ stringifyArrTail ind ys)) := by
          simp [stringifyArrTail]
        have hly : (stringifyVal (ind + 2) y).length < fuel := by
          rw [he] at hlen
          simp only [List.length_cons, List.length_append, spacesC,
            List.length_replicate] at hlen
          omega
        have hlt : (stringifyArrTail ind ys).length < fuel := by
          rw [he] at hlen
          simp only [List.length_cons, List.length_append, spacesC,
            List.length_replicate] at hlen
          omega
        rw [he]
        simp only [List.cons_append, List.append_assoc]
        unfold parseArrTail
        rw [skipWs_cons_not (by decide)]
        dsimp only
        rw [if_pos rfl]
        rw [parseVal_skipWs, skipWs_cons_ws (by decide), skipWs_spaces, skipWs_sv]
        rw [ihV y (ind + 2) (stringifyArrTail ind ys ++ rest) hly
          (noDigitStart_sat ind ys rest)]
        dsimp only
        rw [ihA ys ind rest hlt]
    · -- parseObjTail
      intro ms ind rest hlen
      cases ms with
      | nil =>
        have he : stringifyObjTail ind [] = '\n' :: (spacesC ind ++ [rbraceC]) := by
          simp [stringifyObjTail]
        rw [he]
        simp only [List.cons_append, List.append_assoc, List.singleton_append]
        unfold parseObjTail
        rw [skipWs_cons_ws (by decide), skipWs_spaces, skipWs_cons_not (by decide)]
        dsimp only
        rw [if_neg (by decide : ¬ rbraceC = ','), if_pos rfl]
        simp
      | cons m ms =>
        have he : stringifyObjTail ind (m :: ms)
            = ',' :: '\n' :: (spacesC (ind + 2)
                ++ (stringifyMember (ind + 2) m ++ stringifyObjTail ind ms)) := by
          simp [stringifyObjTail]
        have hm : stringifyMember (ind + 2) m
            = '"' :: (escapeChars m.1.data
                ++ ('"' :: ':' :: ' ' :: stringifyVal (ind + 2) m.2)) := by
          simp [stringifyMember]
        have hlx : (stringifyVal (ind + 2) m.2).length < fuel := by
          rw [he, hm] at hlen
          simp only [List.length_cons, List.length_append, spacesC,
            List.length_replicate] at hlen
          omega
        have hlt : (stringifyObjTail ind ms).length < fuel := by
          rw [he] at hlen
          simp only [List.length_cons, List.length_append, spacesC,
            List.length_replicate] at hlen
          omega
        rw [he, hm]
        simp only [List.cons_append, List.append_assoc]
        unfold parseObjTail
        rw [skipWs_cons_not (by decide)]
        dsimp only
        rw [if_pos rfl]
        rw [skipWs_cons_ws (by decide), skipWs_spaces, skipWs_cons_not (by decide)]
        dsimp only
        rw [if_pos rfl]
        rw [parseStringBody_escape]
        dsimp only
        rw [skipWs_cons_not (by decide)]
        dsimp only
        rw [if_pos rfl]
        rw [parseVal_skipWs, skipWs_cons_ws (by decide), skipWs_sv]
        rw [ihV m.2 (ind + 2) (stringifyObjTail ind ms ++ rest) hlx
          (noDigitStart_sot ind ms rest)]
        dsimp only
        rw [ihO ms ind rest hlt]

/-! ## C3, part 4: the loader round trip -/

/-- `JSON.parse` inverts `JSON.stringify(·, null, 2)`. -/
theorem parseJson_stringifyJson (v : Json) : parseJson (stringifyJson v) = some v := by
  unfold parseJson stringifyJson
  have hdata : (String.mk (stringifyVal 0 v)).data = stringifyVal 0 v := rfl
  have hlen : (String.mk (stringifyVal 0 v)).length = (stringifyVal 0 v).length := rfl
  rw [hlen, hdata]
  have h := (parse_stringify_round ((stringifyVal 0 v).length + 1)).1 v 0 []
    (by omega) trivial
  rw [List.append_nil] at h
  rw [h]
  simp [skipWs]

theorem lookup_none_any_false (cache : List (String × String)) (k : String)
    (h : cache.lookup k = none) : cache.any (fun kv => kv.1 = k) = false := by
  induction cache with
  | nil => rfl
  | cons kv t ih =>
    obtain ⟨k', v'⟩ := kv
    by_cases hk : k = k'
    · subst hk
      simp [List.lookup] at h
    · have hbeq : (k == k') = false := by simp [hk]
      simp only [List.lookup, hbeq] at h
      rw [List.any_cons, ih h]
      simp only [Bool.or_false]
      exact decide_eq_false (fun hh => hk hh.symm)

theorem cacheWrite_lookup_new (cache : List (String × String)) (k val : String)
    (h : cache.lookup k = none) :
    (cacheWrite cache k val).lookup k = some val := by
  unfold cacheWrite
  rw [lookup_none_any_false cache k h]
  simp only [Bool.false_eq_true, if_false, ite_false]
  rw [lookup_append_assoc_list, h]
  simp [List.lookup]

/-- Claim C3 as amended: on a cache miss, `getJson` fetches, decodes the
response, and writes the two-space pretty-printed serialization of the
decoded value (not the raw body) to the cache path derived by stripping
`:/.-?=\x7b\x7d` from the URL; a second load of the same URL then issues
no further fetch and returns the same decoded value, provided the
decoded value is not JS-falsy. -/
theorem cache_round_trip (net : String → String) (url : String) (v : Json)
    (st : LoaderState)
    (hmiss : st.cache.lookup (cacheFilename url) = none)
    (hparse : parseJson (net url) = some v)
    (htruthy : jsTruthy v = true) :
    ∃ st1 : LoaderState,
      getJson net url st = some (v, st1) ∧
      st1.cache.lookup (cacheFilename url) = some (stringifyJson v) ∧
      st1.fetchCount = st.fetchCount + 1 ∧
      getJson net url st1 = some (v, st1) := by
  refine ⟨⟨cacheWrite st.cache (cacheFilename url) (stringifyJson v), st.fetchCount + 1⟩,
    ?_, ?_, rfl, ?_⟩
  · simp [getJson, fetchAndCache, hmiss, hparse]
  · exact cacheWrite_lookup_new st.cache (cacheFilename url) (stringifyJson v) hmiss
  · have hlook : (cacheWrite st.cache (cacheFilename url) (stringifyJson v)).lookup
        (cacheFilename url) = some (stringifyJson v) :=
      cacheWrite_lookup_new st.cache (cacheFilename url) (stringifyJson v) hmiss
    simp [getJson, hlook, parseJson_stringifyJson, htruthy]

/-- Witness for C3's amended claim: a concrete network, URL and document. -/
theorem cache_round_trip_witness :
    ∃ st1 : LoaderState,
      getJson netCompact urlPets emptyLoader = some (Json.obj [("a", Json.num 1)], st1) ∧
      st1.cache.lookup (cacheFilename urlPets)
        = some (stringifyJson (Json.obj [("a", Json.num 1)])) ∧
      st1.fetchCount = emptyLoader.fetchCount + 1 ∧
      getJson netCompact urlPets st1 = some (Json.obj [("a", Json.num 1)], st1) :=
  cache_round_trip netCompact urlPets (Json.obj [("a", Json.num 1)]) emptyLoader
    rfl rfl rfl

/-- Claim C3, counterexample: the cache file does not receive the raw
response body verbatim — fetching a compact document writes its
pretty-printed re-serialization instead — and a cached falsy document
(`null`) does not suppress the second network fetch. -/
theorem cache_verbatim_counterexample :
    (∃ v st1, getJson netCompact urlPets emptyLoader = some (v, st1) ∧
      st1.cache.lookup (cacheFilename urlPets) = some (stringifyJson v) ∧
      stringifyJson v ≠ netCompact urlPets) ∧
    (∃ v1 st1, getJson netNull urlPets emptyLoader = some (v1, st1) ∧
      st1.fetchCount = 1 ∧
      ∃ v2 st2, getJson netNull urlPets st1 = some (v2, st2) ∧ st2.fetchCount = 2) := by
  have hs : stringifyJson (Json.obj [("a", Json.num 1)]) = "\x7b\n  \"a\": 1\n\x7d" := by
    simp [stringifyJson, stringifyVal, stringifyMember, stringifyObjTail, intChars,
      natChars, natCharsAux, escapeChars, escapeChar, spacesC]
    rfl
  have hn : stringifyJson Json.null = "null" := by
    simp [stringifyJson, stringifyVal]
  constructor
  · refine ⟨Json.obj [("a", Json.num 1)],
      ⟨[(cacheFilename urlPets, stringifyJson (Json.obj [("a", Json.num 1)]))], 1⟩,
      rfl, by simp [List.lookup], ?_⟩
    rw [hs]
    decide
  · refine ⟨Json.null, ⟨[(cacheFilename urlPets, stringifyJson Json.null)], 1⟩, rfl, rfl,
      Json.null, ⟨[(cacheFilename urlPets, stringifyJson Json.null)], 2⟩, ?_, rfl⟩
    have hlook : (([(cacheFilename urlPets, stringifyJson Json.null)] :
        List (String × String)).lookup (cacheFilename urlPets))
        = some (stringifyJson Json.null) := by
      simp [List.lookup]
    simp only [getJson]
    rw [hlook]
    dsimp only
    rw [hn]
    rw [show parseJson "null" = some Json.null from rfl]
    dsimp only
    rw [if_neg (by decide : ¬ (jsTruthy Json.null = true))]
    simp only [fetchAndCache]
    rw [show parseJson (netNull urlPets) = some Json.null from rfl]
    dsimp only
    rw [hn]
    simp [cacheWrite]
